import Mathlib

/-!
Verification of the deploxy CLI deployment pipeline core.

Shallow embedding of the validation-and-packaging pipeline:
registry validation (`src/lib/npm.ts`), Python artifact discovery
(`src/lib/python.ts`), file-set resolution (`src/lib/metadata.ts`),
config substitution, and the orchestrator archive phase (`src/index.ts`).
Network and filesystem effects are abstracted as explicit inputs
(environments / result parameters); machine numbers are modelled as `Nat`.
-/

set_option autoImplicit false

namespace Deploxy

/-!
Version comparison, from `compareVersions` in `src/lib/npm.ts`.

The JS code cleans the string with `replace(/[^\d.]/g, "")`, splits on `.`,
maps `parseInt(num) || 0` over the components (an empty component parses to
`NaN`, hence `0`), and then loops `i = 0 .. maxLength - 1` comparing
`versionA[i] || 0` with `versionB[i] || 0`.  Components are modelled as `Nat`.
-/

/-- Splitting a character list on a separator, the way `String.prototype.split`
with a single-character separator behaves (so `"".split` gives one empty
component and separators at the ends give empty components). -/
def splitOnChar (sep : Char) : List Char → List (List Char)
  | [] => [[]]
  | c :: cs =>
    match splitOnChar sep cs with
    | [] => [[]]
    | g :: gs => if c == sep then [] :: g :: gs else (c :: g) :: gs

/-- Model of `parseInt(num) || 0` applied to an all-digit component: the empty
string parses to `NaN`, which `|| 0` turns into `0`; otherwise the decimal
value.  (Arguments here are always digit-only, produced by the clean step.) -/
def parseIntOr0 (s : List Char) : Nat :=
  s.foldl (fun n c => n * 10 + (c.toNat - 48)) 0

/-- Model of `version.replace(/[^\d.]/g, "")`: keep only digits and dots. -/
def stripNonNumeric (version : String) : String :=
  String.mk (version.data.filter (fun c => c.isDigit || c == '.'))

/-- Model of the `parseVersion` closure inside `compareVersions`. -/
def parseVersion (version : String) : List Nat :=
  let cleaned := stripNonNumeric version
  (splitOnChar '.' cleaned.data).map parseIntOr0

/-- The comparison loop of `compareVersions`: `fuel` plays the role of
`maxLength`; at each step the heads (`versionA[i] || 0`, `versionB[i] || 0`)
are compared and the loop advances to the tails. -/
def compareLoop : Nat → List Nat → List Nat → Int
  | 0, _, _ => 0
  | n + 1, versionA, versionB =>
    let numA := versionA.headD 0
    let numB := versionB.headD 0
    if numA > numB then 1
    else if numA < numB then -1
    else compareLoop n versionA.tail versionB.tail

/-- Model of `compareVersions(a, b)` from `src/lib/npm.ts`. -/
def compareVersions (a b : String) : Int :=
  let versionA := parseVersion a
  let versionB := parseVersion b
  let maxLength := max versionA.length versionB.length
  compareLoop maxLength versionA versionB

/-- Model of `isVersionHigher` from `src/lib/npm.ts`. -/
def isVersionHigher (newVersion existingVersion : String) : Bool :=
  decide (compareVersions newVersion existingVersion > 0)

/-!
Registry validation, from `src/lib/npm.ts`.

The two HTTP calls `fetchPackageInfo` and `checkPublishPermission` are
external I/O; they are abstracted as a `RegistryEnv` whose components return
`Except String _` (`.error` models a rejected promise, carrying the message
of the thrown `Error`).
-/

/-- Result shape of `fetchPackageInfo` (`PackageVersionInfo` in the source;
the source field `exists` is a Lean keyword, hence `exists_`). -/
structure PackageVersionInfo where
  exists_ : Bool
  latestVersion : Option String := none
  allVersions : Option (List String) := none
deriving DecidableEq

/-- The `versionCheck` component of `ValidationResult`. -/
structure VersionCheck where
  isValidVersion : Bool
  message : String
deriving DecidableEq

/-- The `ownershipCheck` component of `ValidationResult`. -/
structure OwnershipCheck where
  isOwner : Bool
  message : String
deriving DecidableEq

/-- `ValidationResult` from `src/lib/npm.ts`. -/
structure ValidationResult where
  packageExists : Bool
  canPublish : Bool
  versionCheck : VersionCheck
  ownershipCheck : Option OwnershipCheck := none
deriving DecidableEq

/-- Abstraction of the npm registry endpoints used by `validatePackage`. -/
structure RegistryEnv where
  fetchPackageInfo : String → Except String PackageVersionInfo
  checkPublishPermission : String → String → Except String Bool

/-- The catch block of `validatePackage` rethrows
`new Error("Error occurred during package validation: " + error)`; string
conversion of an `Error` instance prepends `Error: ` to its message. -/
def wrapValidationError (e : String) : String :=
  "Error occurred during package validation: Error: " ++ e

/-- Model of `validatePackage` from `src/lib/npm.ts`.  When the package does
not exist the permission endpoint is never consulted; when it exists but the
registry reported no `latest` dist-tag, the non-null assertion
`packageInfo.latestVersion!` feeds `undefined` into `isVersionHigher`, whose
`replace` call throws a `TypeError` that the catch block wraps. -/
def validatePackage (env : RegistryEnv)
    (packageName packageVersion npmToken : String) :
    Except String ValidationResult :=
  match env.fetchPackageInfo packageName with
  | .error e => .error (wrapValidationError e)
  | .ok packageInfo =>
    if !packageInfo.exists_ then
      .ok { packageExists := false
            canPublish := true
            versionCheck :=
              { isValidVersion := true
                message := "New package - all versions can be published" } }
    else
      match packageInfo.latestVersion with
      | none =>
        .error ("Error occurred during package validation: TypeError: Cannot read properties of undefined (reading replace)")
      | some latest =>
        let isValid := isVersionHigher packageVersion latest
        let vmessage :=
          if isValid then
            "✅ New version " ++ packageVersion ++
              " is higher than existing version " ++ latest ++ "."
          else
            "❌ New version " ++ packageVersion ++
              " is not higher than existing version " ++ latest ++ "."
        match env.checkPublishPermission packageName npmToken with
        | .error e => .error (wrapValidationError e)
        | .ok hasPermission =>
          .ok { packageExists := true
                canPublish := isValid && hasPermission
                versionCheck := { isValidVersion := isValid, message := vmessage }
                ownershipCheck := some
                  { isOwner := hasPermission
                    message :=
                      if hasPermission then
                        "✅ You have package publish permissions."
                      else
                        "❌ You do not have package publish permissions." } }

/-!
Python build-artifact path, from `src/lib/python.ts`.

Filesystem state is abstracted: `distExists` is whether the `dist/`
directory exists and `distFiles` is its entry listing; `projectInfo` is the
(possibly failed) result of parsing `pyproject.toml`.
-/

/-- `PyProjectInfo` from `src/lib/python.ts` (the source key
`dev-dependencies` is spelled `devDependencies`). -/
structure PyProjectInfo where
  name : String
  version : String
  description : Option String := none
  dependencies : Option (List String) := none
  devDependencies : Option (List String) := none
deriving DecidableEq

/-- `PythonPackageInfo` from `src/lib/python.ts`. -/
structure PythonPackageInfo where
  name : String
  version : String
  wheelFiles : List String
deriving DecidableEq

/-- Model of `String.prototype.endsWith` (stated over the character lists,
so that concrete instances evaluate by `decide`). -/
def strEndsWith (s suffix : String) : Bool :=
  List.isSuffixOf suffix.data s.data

/-- Model of `findWheelFiles`: an absent `dist/` directory yields `[]`;
otherwise the directory listing filtered to names ending in `.whl`. -/
def findWheelFiles (distExists : Bool) (distFiles : List String) : List String :=
  if !distExists then []
  else distFiles.filter (fun file => strEndsWith file ".whl")

/-- Model of `getPythonPackageInfo`: `null` when `pyproject.toml` failed to
parse, or when `findWheelFiles` comes back empty (the `NoArtifactsFound`
hard failure instructing the operator to run `uv build`). -/
def getPythonPackageInfo (projectInfo : Option PyProjectInfo)
    (distExists : Bool) (distFiles : List String) : Option PythonPackageInfo :=
  match projectInfo with
  | none => none
  | some info =>
    let wheelFiles := findWheelFiles distExists distFiles
    if wheelFiles.isEmpty then none
    else some { name := info.name, version := info.version, wheelFiles := wheelFiles }

/-- Result shape of `validatePythonPackage` (its `versionCheck` and
`ownershipCheck` components carry only `message` fields, flattened here). -/
structure PyValidationResult where
  packageExists : Bool
  canPublish : Bool
  versionCheckMessage : String
  ownershipCheckMessage : Option String := none
deriving DecidableEq

/-- Model of `validatePythonPackage` from `src/lib/python.ts`: it delegates
to `validatePackage` and converts any thrown error into a result with
`packageExists=false`, `canPublish=false` and the error message embedded
into the version-check message (the source reads `error.message`, which in
this embedding is the error string itself). -/
def validatePythonPackage (env : RegistryEnv)
    (packageName packageVersion npmToken : String) : PyValidationResult :=
  match validatePackage env packageName packageVersion npmToken with
  | .ok result =>
    { packageExists := result.packageExists
      canPublish := result.canPublish
      versionCheckMessage := result.versionCheck.message
      ownershipCheckMessage := result.ownershipCheck.map (fun oc => oc.message) }
  | .error e =>
    { packageExists := false
      canPublish := false
      versionCheckMessage := "❌ Validation failed: " ++ e
      ownershipCheckMessage := none }

/-!
Deployment orchestrator archive phase, from `src/index.ts`.

`runDeploy` (and the per-shape `deployJsPackage` / `deployPythonPackage`
revision) builds `output.zip`, uploads it, and then deletes it; a failure
propagates out to the `main` catch block, which only prints and calls
`process.exit(1)`.  The trace records the artifact state at the decisive
points.  The archive step and the upload step are external effects, passed
in as `Except` results; on a zip failure `adm-zip` has not yet reached
`writeZip`, so no artifact file exists.
-/

instance {ε α : Type} [DecidableEq ε] [DecidableEq α] :
    DecidableEq (Except ε α) := fun a b =>
  match a, b with
  | .error x, .error y =>
    if h : x = y then .isTrue (by rw [h]) else .isFalse (by simp [h])
  | .error _, .ok _ => .isFalse (by simp)
  | .ok _, .error _ => .isFalse (by simp)
  | .ok x, .ok y =>
    if h : x = y then .isTrue (by rw [h]) else .isFalse (by simp [h])

/-- Observable trace of one run of the archive/upload/cleanup phase. -/
structure DeployRunTrace where
  /-- whether a file exists at the fixed output path just before `createZip` -/
  artifactBeforeBuild : Bool
  /-- whether the `ArchiveBuild` step completed (archive written to disk) -/
  archiveWritten : Bool
  /-- whether a file exists at the fixed output path when the process exits -/
  artifactAtExit : Bool
  outcome : Except String Unit
deriving DecidableEq

/-- Model of steps 4-6 of `runDeploy` in `src/index.ts` (delete any stale
`output.zip`, `createZip`, `uploadFile`, then the guarded `unlinkSync`),
together with the exit behaviour of `main`: a thrown error skips every
statement after the throwing `await`, including the cleanup step. -/
def runDeployArchivePhase (preExistingArtifact : Bool)
    (zipResult uploadResult : Except String Unit) : DeployRunTrace :=
  -- step 4: `if (fs.existsSync(outputZipPath)) fs.unlinkSync(outputZipPath)`
  -- leaves no file at the output path whether or not one existed before.
  let afterDelete := if preExistingArtifact then false else false
  match zipResult with
  | .error e =>
    { artifactBeforeBuild := afterDelete
      archiveWritten := false
      artifactAtExit := afterDelete
      outcome := .error e }
  | .ok _ =>
    match uploadResult with
    | .error e =>
      -- `await uploadFile(...)` threw: control jumps to `main`'s catch,
      -- which exits without running the step-6 cleanup.
      { artifactBeforeBuild := afterDelete
        archiveWritten := true
        artifactAtExit := true
        outcome := .error e }
    | .ok _ =>
      -- step 6: `if (fs.existsSync(outputZipPath)) fs.unlinkSync(...)`
      { artifactBeforeBuild := afterDelete
        archiveWritten := true
        artifactAtExit := false
        outcome := .ok () }

/-- Observable trace of `deployPythonPackage` (python revision of the
orchestrator): whether the archive was built and the final outcome. -/
structure PyDeployTrace where
  archiveBuilt : Bool
  artifactAtExit : Bool
  outcome : Except String Unit
deriving DecidableEq

/-- Model of `deployPythonPackage` from `src/index.ts` (python revision):
package-info discovery, entry-script selection, credential lookup, registry
validation, then the same archive/upload/cleanup tail as the JS path.
`scripts` is the `[project.scripts]` table (a later revision threads it
through `PythonPackageInfo`); `preExistingArtifact` is whether a stale
`output.zip` exists when the run starts. -/
def deployPythonPackage (env : RegistryEnv)
    (projectInfo : Option PyProjectInfo) (distExists : Bool)
    (distFiles : List String)
    (scripts : Option (List (String × String)))
    (npmCredentials : Option (String × String))
    (preExistingArtifact : Bool)
    (zipResult uploadResult : Except String Unit) : PyDeployTrace :=
  match getPythonPackageInfo projectInfo distExists distFiles with
  | none =>
    { archiveBuilt := false
      artifactAtExit := preExistingArtifact
      outcome := .error "Failed to get Python package information. Please ensure pyproject.toml exists and dist/ contains wheel files." }
  | some pythonPackageInfo =>
    match scripts with
    | some ((firstScriptName, _) :: _) =>
      let _mcpEntryFilePath := firstScriptName
      match npmCredentials with
      | none =>
        { archiveBuilt := false
          artifactAtExit := preExistingArtifact
          outcome := .error "NPM token not found. Please create a .npmrc file or set NPM_TOKEN environment variable." }
      | some (npmToken, _npmrcContent) =>
        let validationResult :=
          validatePythonPackage env pythonPackageInfo.name
            pythonPackageInfo.version npmToken
        if !validationResult.canPublish then
          { archiveBuilt := false
            artifactAtExit := preExistingArtifact
            outcome := .error "Cannot publish package. Please check the validation results above." }
        else
          -- delete any stale output.zip, then createPythonZip / uploadFile /
          -- guarded cleanup, exactly as in `runDeployArchivePhase`.
          match zipResult with
          | .error e =>
            { archiveBuilt := false, artifactAtExit := false, outcome := .error e }
          | .ok _ =>
            match uploadResult with
            | .error e =>
              { archiveBuilt := true, artifactAtExit := true, outcome := .error e }
            | .ok _ =>
              { archiveBuilt := true, artifactAtExit := false, outcome := .ok () }
    | _ =>
      { archiveBuilt := false
        artifactAtExit := preExistingArtifact
        outcome := .error "No scripts found in pyproject.toml [project.scripts]. Please define at least one script entry." }

/-!
Source-project file-set resolver, from `getFilesToInclude` in the
manifest-driven revision of `src/lib/metadata.ts`.

The source accumulates names in a JS `Set` (insertion-ordered, first
occurrence kept) and converts it back with `Array.from`; the
`console.warn` emitted for an absent or empty `files` field is modelled as
the `warned` flag.
-/

/-- `PackageInfo` from `src/lib/metadata.ts` (record fields modelled as
association lists). -/
structure PackageInfo where
  name : String
  version : String
  main : Option String := none
  types : Option String := none
  files : Option (List String) := none
  bin : Option (List (String × String)) := none
  scripts : Option (List (String × String)) := none
deriving DecidableEq

/-- Insertion into an insertion-ordered set represented as a duplicate-free
list: the model of `Set.prototype.add`. -/
def setAdd (s : List String) (x : String) : List String :=
  if x ∈ s then s else s ++ [x]

/-- Result of `getFilesToInclude` plus whether `console.warn` fired. -/
structure FilesToIncludeResult where
  files : List String
  warned : Bool
deriving DecidableEq

/-- Model of `getFilesToInclude(packageJson)`: always seed the set with
`package.json`; with an absent or empty `files` field, warn and return just
the seed; otherwise add every declared pattern in order. -/
def getFilesToInclude (packageJson : PackageInfo) : FilesToIncludeResult :=
  let includedFiles := setAdd [] "package.json"
  match packageJson.files with
  | none => { files := includedFiles, warned := true }
  | some filesFields =>
    if filesFields.isEmpty then { files := includedFiles, warned := true }
    else { files := filesFields.foldl setAdd includedFiles, warned := false }

/-- Specification-side description of "deduplicated union preserving
declaration order": keep the first occurrence of each element. -/
def dedupFirst : List String → List String
  | [] => []
  | x :: xs => x :: dedupFirst (xs.filter (fun y => y != x))
termination_by l => l.length
decreasing_by
  simp only [List.length_cons]
  exact Nat.lt_succ_of_le (List.length_filter_le _ _)

/-!
Exclusion matching, from `isExcluded` / `normalizeExcludePattern` /
`matchesPattern` in `src/lib/metadata.ts`.

Paths and patterns are modelled as their `/`-segment lists (the image of
`String.prototype.split("/")`), so string-level operations translate as:
`p.includes("*")` — some segment contains `*`; `p.endsWith("/")` — the last
segment is empty (patterns in the source are nonempty strings);
`p + "/"` — append an empty segment; `p + "/*"` — append a `*` segment;
`p + "/**/*"` — append `**` and `*` segments; for a pattern already ending
in `/`, `p + "*"` / `p + "**/*"` replace that trailing empty segment.

`matchesPattern` delegates to the external `minimatch` library with options
`matchBase: true, dot: true, nocase: false`; the subset of its documented
semantics exercised here is modelled by `segMatch` (within one segment, `*`
matches any character sequence) and `globMatch` (a `**` pattern segment
matches zero or more whole path segments); with `matchBase`, a slash-free
pattern is matched against the basename of the path.
-/

/-- Single-segment glob match: literal characters match themselves and `*`
matches any (possibly empty) character sequence within the segment. -/
def segMatch : List Char → List Char → Bool
  | [], cs => cs.isEmpty
  | p :: ps, cs =>
    if p == '*' then
      segMatch ps cs ||
        (match cs with
         | [] => false
         | _ :: cs2 => segMatch (p :: ps) cs2)
    else
      match cs with
      | [] => false
      | c :: cs2 => p == c && segMatch ps cs2
termination_by ps cs => ps.length + cs.length

/-- Multi-segment glob match: a `**` pattern segment matches zero or more
path segments; any other pattern segment must `segMatch` one path segment. -/
def globMatch : List String → List String → Bool
  | [], fs => fs.isEmpty
  | p :: ps, fs =>
    if p == "**" then
      globMatch ps fs ||
        (match fs with
         | [] => false
         | _ :: fs2 => globMatch (p :: ps) fs2)
    else
      match fs with
      | [] => false
      | f :: fs2 => segMatch p.data f.data && globMatch ps fs2
termination_by ps fs => ps.length + fs.length

/-- Model of `matchesPattern(filePath, pattern)`: minimatch with
`matchBase: true`, so a pattern without slashes is matched against the
basename of the path; otherwise the segment lists are matched in full. -/
def matchesPattern (filePath pattern : List String) : Bool :=
  if pattern.length == 1 then
    segMatch (pattern.headD "").data (filePath.getLastD "").data
  else
    globMatch pattern filePath

/-- Model of `normalizeExcludePattern`: always keep the original pattern;
a bare name (no wildcard, no trailing separator) additionally produces
`name/`, `name/*` and `name/**/*`; a trailing-separator pattern without
wildcard additionally produces `name/*` and `name/**/*`. -/
def normalizeExcludePattern (pattern : List String) : List (List String) :=
  let patterns := [pattern]
  let patterns :=
    if !(pattern.any fun s => s.data.contains '*') &&
        !(pattern.getLastD "" == "") then
      patterns ++ [pattern ++ [""], pattern ++ ["*"], pattern ++ ["**", "*"]]
    else patterns
  if (pattern.getLastD "" == "") &&
      !(pattern.any fun s => s.data.contains '*') then
    patterns ++ [pattern.dropLast ++ ["*"], pattern.dropLast ++ ["**", "*"]]
  else patterns

/-- Model of `isExcluded(filePath, excludePatterns)`. -/
def isExcluded (filePath : List String) (excludePatterns : List (List String)) : Bool :=
  excludePatterns.any (fun pattern =>
    (normalizeExcludePattern pattern).any (fun p => matchesPattern filePath p))

/-!
Environment-variable substitution, from `substituteEnvVars` and
`parseDeployConfigs` in the revision of `src/lib/metadata.ts` with
placeholder support.

The regex `/\$\{\s*process\.env\.([a-zA-Z_][a-zA-Z0-9_]*)\s*\}/g` is
modelled by a left-to-right scanner: at each position a placeholder parse is
attempted; on success the (JSON-escaped) environment value is emitted and
scanning resumes after the placeholder, otherwise the character is copied.
The greedy identifier cannot backtrack usefully because identifier
characters are neither whitespace nor the closing brace.  The process
environment is an explicit `String → Option String`.
-/

/-- JS `\s` for the ASCII range (space, tab, and the four control
whitespace characters). -/
def isWsChar (c : Char) : Bool :=
  c == ' ' || c == '\t' || c == '\n' || c == '\r' || c == '\x0b' || c == '\x0c'

/-- Regex class `[a-zA-Z_]`. -/
def isIdentStart (c : Char) : Bool :=
  c.isAlpha || c == '_'

/-- Regex class `[a-zA-Z0-9_]`. -/
def isIdentChar (c : Char) : Bool :=
  c.isAlpha || c.isDigit || c == '_'

/-- Drop leading whitespace (`\s*`). -/
def skipWs : List Char → List Char
  | [] => []
  | c :: cs => if isWsChar c then skipWs cs else c :: cs

/-- Consume an expected literal prefix, returning the remainder. -/
def stripPrefixChars : List Char → List Char → Option (List Char)
  | [], l => some l
  | _ :: _, [] => none
  | p :: ps, c :: cs => if p == c then stripPrefixChars ps cs else none

/-- Longest prefix of identifier characters (`[a-zA-Z0-9_]*`, greedy). -/
def takeIdent : List Char → List Char × List Char
  | [] => ([], [])
  | c :: cs =>
    if isIdentChar c then
      let (i, r) := takeIdent cs
      (c :: i, r)
    else ([], c :: cs)

/-- Attempt to parse `${  process.env.NAME  }` at the head of the input,
returning the captured variable name and the remainder. -/
def tryPlaceholder (l : List Char) : Option (String × List Char) :=
  match stripPrefixChars ['$', '\x7b'] l with
  | none => none
  | some r1 =>
    match stripPrefixChars "process.env.".data (skipWs r1) with
    | none => none
    | some r3 =>
      match r3 with
      | [] => none
      | c :: cs =>
        if isIdentStart c then
          match stripPrefixChars ['\x7d'] (skipWs (takeIdent cs).2) with
          | none => none
          | some r6 => some (String.mk (c :: (takeIdent cs).1), r6)
        else none

/-- Lowercase hex digit, for `\u00XX` escapes. -/
def hexDigit (n : Nat) : Char :=
  if n < 10 then Char.ofNat (48 + n) else Char.ofNat (87 + n)

/-- Escaping of one character inside a JSON string literal, as performed by
`JSON.stringify` on a string value. -/
def jsonEscapeChar (c : Char) : List Char :=
  if c == '"' then ['\\', '"']
  else if c == '\\' then ['\\', '\\']
  else if c == '\n' then ['\\', 'n']
  else if c == '\r' then ['\\', 'r']
  else if c == '\t' then ['\\', 't']
  else if c == '\x08' then ['\\', 'b']
  else if c == '\x0c' then ['\\', 'f']
  else if c.toNat < 32 then
    ['\\', 'u', '0', '0', hexDigit (c.toNat / 16), hexDigit (c.toNat % 16)]
  else [c]

/-- Model of `JSON.stringify(envVar).slice(1, -1)`: the JSON-escaped body of
the string literal, without the surrounding quotes. -/
def jsonEscape (s : String) : String :=
  String.mk (s.data.flatMap jsonEscapeChar)

theorem stripPrefixChars_length {p l r : List Char}
    (h : stripPrefixChars p l = some r) : r.length + p.length = l.length := by
  induction p generalizing l with
  | nil => simp only [stripPrefixChars, Option.some.injEq] at h; simp [← h]
  | cons a ps ih =>
    match l with
    | [] => simp [stripPrefixChars] at h
    | c :: cs =>
      simp only [stripPrefixChars] at h
      split at h
      · have := ih h
        simp only [List.length_cons]
        omega
      · exact absurd h (by simp)

theorem skipWs_length (l : List Char) : (skipWs l).length ≤ l.length := by
  induction l with
  | nil => simp [skipWs]
  | cons c cs ih =>
    simp only [skipWs]
    split
    · exact Nat.le_succ_of_le ih
    · simp

theorem takeIdent_length (l : List Char) : (takeIdent l).2.length ≤ l.length := by
  induction l with
  | nil => simp [takeIdent]
  | cons c cs ih =>
    simp only [takeIdent]
    split
    · exact Nat.le_succ_of_le ih
    · simp

theorem tryPlaceholder_length {l : List Char} {v : String} {rest : List Char}
    (h : tryPlaceholder l = some (v, rest)) : rest.length < l.length := by
  unfold tryPlaceholder at h
  split at h
  · exact absurd h (by simp)
  next r1 h1 =>
    have hl1 : r1.length + 2 = l.length := stripPrefixChars_length h1
    have hl2 : (skipWs r1).length ≤ r1.length := skipWs_length r1
    split at h
    · exact absurd h (by simp)
    next r3 h3 =>
      have hl3 : r3.length + 12 = (skipWs r1).length := stripPrefixChars_length h3
      split at h
      · exact absurd h (by simp)
      next c cs =>
        split at h
        · split at h
          · exact absurd h (by simp)
          next r6 h6 =>
            have hl4 : (takeIdent cs).2.length ≤ cs.length := takeIdent_length cs
            have hl5 : (skipWs (takeIdent cs).2).length ≤ (takeIdent cs).2.length :=
              skipWs_length _
            have hl6 : r6.length + 1 = (skipWs (takeIdent cs).2).length :=
              stripPrefixChars_length h6
            simp only [Option.some.injEq, Prod.mk.injEq] at h
            obtain ⟨-, hrest⟩ := h
            subst hrest
            simp only [List.length_cons] at hl3
            omega
        · exact absurd h (by simp)

/-- Regex classes `[a-zA-Z_][a-zA-Z0-9_]*` packaged as the validity of a
captured variable name. -/
def isValidVarName (name : String) : Bool :=
  match name.data with
  | [] => false
  | c :: cs => isIdentStart c && cs.all isIdentChar

/-- The scanning loop of `String.prototype.replace` with a global regex:
try a match at each position, emit the replacement (empty when the variable
is unset, else the JSON-escaped value) and continue after the match, or copy
the character.  Total by construction: it never fails.  `fuel` bounds the
number of steps; since a successful placeholder parse consumes at least one
character (`tryPlaceholder_length`), any `fuel ≥ l.length` computes the
full substitution (`substituteEnvVarsLoop_fuel`). -/
def substituteEnvVarsLoop (env : String → Option String) :
    Nat → List Char → List Char
  | 0, l => l
  | _ + 1, [] => []
  | fuel + 1, c :: cs =>
    match tryPlaceholder (c :: cs) with
    | some (varName, rest) =>
      (match env varName with
       | none => []
       | some envVar => (jsonEscape envVar).data) ++
        substituteEnvVarsLoop env fuel rest
    | none => c :: substituteEnvVarsLoop env fuel cs

/-- Model of `substituteEnvVars(content)`. -/
def substituteEnvVars (env : String → Option String) (content : String) : String :=
  String.mk (substituteEnvVarsLoop env content.data.length content.data)

/-- `DeployConfigs` from the placeholder-supporting revision of
`src/lib/metadata.ts` (record fields as association lists, enum values as
strings / numbers). -/
structure DeployConfigs where
  authToken : String
  defaultDeployRegion : String
  stdioArgsIndex : Option String := none
  injectedEnv : Option (List (String × String)) := none
  packageType : String := "js"
  nodejsRuntime : String := "nodejs20x"
  memorySizeMB : Nat := 256
deriving DecidableEq

/-- Model of `parseDeployConfigs`: the raw file content passes through
`substituteEnvVars` and only then through `JSON.parse` (an external step,
abstracted as `jsonParse`, returning `none` for the caught exceptions). -/
def parseDeployConfigs (env : String → Option String)
    (jsonParse : String → Option DeployConfigs) (content : String) :
    Option DeployConfigs :=
  jsonParse (substituteEnvVars env content)

/-!
Concrete registry environments used by the witness theorems.
-/

/-- A registry in which every package exists with latest version `1.0.0` and
every caller has publish permission. -/
def envExisting : RegistryEnv where
  fetchPackageInfo := fun _ =>
    .ok { exists_ := true, latestVersion := some "1.0.0" }
  checkPublishPermission := fun _ _ => .ok true

/-- A registry in which no package exists and every permission probe is
rejected as unauthorized. -/
def envAbsent : RegistryEnv where
  fetchPackageInfo := fun _ => .ok { exists_ := false }
  checkPublishPermission := fun _ _ => .ok false

/-- A registry whose metadata endpoint times out. -/
def envTimeout : RegistryEnv where
  fetchPackageInfo := fun _ => .error "npm registry request timeout"
  checkPublishPermission := fun _ _ => .ok true

/-!
Lemmas about the `compareVersions` loop.
-/

theorem compareLoop_nil_nil (n : Nat) : compareLoop n [] [] = 0 := by
  induction n with
  | zero => rfl
  | succ n ih =>
    simp only [compareLoop, List.headD_nil, List.tail_nil, gt_iff_lt,
      lt_self_iff_false, if_false]
    exact ih

theorem compareLoop_neg (n : Nat) :
    ∀ x y : List Nat, compareLoop n x y = -compareLoop n y x := by
  induction n with
  | zero => intro x y; rfl
  | succ n ih =>
    intro x y
    simp only [compareLoop]
    rcases Nat.lt_trichotomy (x.headD 0) (y.headD 0) with h | h | h
    · rw [if_neg (by omega), if_pos h, if_pos h]
    · rw [if_neg (by omega), if_neg (by omega), if_neg (by omega),
        if_neg (by omega)]
      exact ih x.tail y.tail
    · rw [if_pos h, if_neg (by omega), if_pos h]
      norm_num

theorem compareLoop_stable (n : Nat) :
    ∀ (m : Nat) (x y : List Nat),
      max x.length y.length ≤ n → max x.length y.length ≤ m →
      compareLoop n x y = compareLoop m x y := by
  induction n with
  | zero =>
    intro m x y hn _
    rw [Nat.max_le] at hn
    have hx : x = [] := List.eq_nil_of_length_eq_zero (by omega)
    have hy : y = [] := List.eq_nil_of_length_eq_zero (by omega)
    subst hx; subst hy
    rw [compareLoop_nil_nil, compareLoop_nil_nil]
  | succ n ih =>
    intro m x y hn hm
    match m with
    | 0 =>
      rw [Nat.max_le] at hm
      have hx : x = [] := List.eq_nil_of_length_eq_zero (by omega)
      have hy : y = [] := List.eq_nil_of_length_eq_zero (by omega)
      subst hx; subst hy
      rw [compareLoop_nil_nil, compareLoop_nil_nil]
    | m + 1 =>
      simp only [compareLoop]
      by_cases h1 : x.headD 0 > y.headD 0
      · rw [if_pos h1, if_pos h1]
      · rw [if_neg h1, if_neg h1]
        by_cases h2 : x.headD 0 < y.headD 0
        · rw [if_pos h2, if_pos h2]
        · rw [if_neg h2, if_neg h2]
          have hx := List.length_tail x
          have hy := List.length_tail y
          rw [Nat.max_le] at hn hm
          exact ih m x.tail y.tail (by rw [Nat.max_le]; omega)
            (by rw [Nat.max_le]; omega)

theorem compareLoop_range (n : Nat) :
    ∀ x y : List Nat,
      compareLoop n x y = -1 ∨ compareLoop n x y = 0 ∨ compareLoop n x y = 1 := by
  induction n with
  | zero => intro x y; right; left; rfl
  | succ n ih =>
    intro x y
    simp only [compareLoop]
    by_cases h1 : x.headD 0 > y.headD 0
    · rw [if_pos h1]; right; right; rfl
    · rw [if_neg h1]
      by_cases h2 : x.headD 0 < y.headD 0
      · rw [if_pos h2]; left; rfl
      · rw [if_neg h2]; exact ih x.tail y.tail

theorem compareLoop_trans_ne_one (n : Nat) :
    ∀ x y z : List Nat, compareLoop n x y ≠ 1 → compareLoop n y z ≠ 1 →
      compareLoop n x z ≠ 1 := by
  induction n with
  | zero => intro x y z _ _; simp [compareLoop]
  | succ n ih =>
    intro x y z h1 h2
    have hab : x.headD 0 ≤ y.headD 0 := by
      by_contra hc
      apply h1
      simp only [compareLoop]
      rw [if_pos (by omega)]
    have hbc : y.headD 0 ≤ z.headD 0 := by
      by_contra hc
      apply h2
      simp only [compareLoop]
      rw [if_pos (by omega)]
    simp only [compareLoop]
    by_cases hac : x.headD 0 > z.headD 0
    · omega
    · rw [if_neg hac]
      by_cases hac2 : x.headD 0 < z.headD 0
      · rw [if_pos hac2]; decide
      · rw [if_neg hac2]
        apply ih x.tail y.tail z.tail
        · intro hr
          apply h1
          simp only [compareLoop]
          rw [if_neg (by omega), if_neg (by omega)]
          exact hr
        · intro hr
          apply h2
          simp only [compareLoop]
          rw [if_neg (by omega), if_neg (by omega)]
          exact hr

theorem compareLoop_zero_congr (n : Nat) :
    ∀ x y z : List Nat, compareLoop n x y = 0 →
      compareLoop n x z = compareLoop n y z := by
  induction n with
  | zero => intro x y z _; rfl
  | succ n ih =>
    intro x y z h
    have h0 : x.headD 0 = y.headD 0 ∧ compareLoop n x.tail y.tail = 0 := by
      by_cases hgt : x.headD 0 > y.headD 0
      · exfalso
        simp only [compareLoop] at h
        rw [if_pos hgt] at h
        exact absurd h (by decide)
      · by_cases hlt : x.headD 0 < y.headD 0
        · exfalso
          simp only [compareLoop] at h
          rw [if_neg hgt, if_pos hlt] at h
          exact absurd h (by decide)
        · refine ⟨by omega, ?_⟩
          simp only [compareLoop] at h
          rwa [if_neg hgt, if_neg hlt] at h
    obtain ⟨hh, ht⟩ := h0
    simp only [compareLoop]
    rw [hh]
    by_cases hc1 : y.headD 0 > z.headD 0
    · rw [if_pos hc1, if_pos hc1]
    · rw [if_neg hc1, if_neg hc1]
      by_cases hc2 : y.headD 0 < z.headD 0
      · rw [if_pos hc2, if_pos hc2]
      · rw [if_neg hc2, if_neg hc2]
        exact ih x.tail y.tail z.tail ht

theorem compareLoop_append_zero (n : Nat) :
    ∀ x y : List Nat, max (x.length + 1) y.length ≤ n →
      compareLoop n (x ++ [0]) y = compareLoop n x y := by
  induction n with
  | zero => intro x y hn; rw [Nat.max_le] at hn; omega
  | succ n ih =>
    intro x y hn
    match x with
    | [] =>
      simp only [List.nil_append, compareLoop, List.headD_cons, List.headD_nil,
        List.tail_cons, List.tail_nil]
    | a :: x2 =>
      simp only [List.cons_append, compareLoop, List.headD_cons, List.tail_cons]
      by_cases h1 : a > y.headD 0
      · rw [if_pos h1, if_pos h1]
      · rw [if_neg h1, if_neg h1]
        by_cases h2 : a < y.headD 0
        · rw [if_pos h2, if_pos h2]
        · rw [if_neg h2, if_neg h2]
          have hy := List.length_tail y
          rw [Nat.max_le] at hn
          simp only [List.length_cons] at hn
          exact ih x2 y.tail (by rw [Nat.max_le]; omega)

theorem compareVersions_eq_compareLoop (a b : String) (n : Nat)
    (hn : max (parseVersion a).length (parseVersion b).length ≤ n) :
    compareVersions a b = compareLoop n (parseVersion a) (parseVersion b) := by
  simp only [compareVersions]
  exact compareLoop_stable _ n _ _ (le_refl _) hn

theorem compareVersions_neg_general (a b : String) :
    compareVersions a b = -compareVersions b a := by
  simp only [compareVersions]
  rw [Nat.max_comm (parseVersion b).length (parseVersion a).length,
    compareLoop_neg]

theorem compareVersions_trans_le (a b c : String)
    (h1 : compareVersions a b ≤ 0) (h2 : compareVersions b c ≤ 0) :
    compareVersions a c ≤ 0 := by
  have hla : (parseVersion a).length ≤
      max (max (parseVersion a).length (parseVersion b).length)
        (parseVersion c).length :=
    le_trans (le_max_left _ _) (le_max_left _ _)
  have hlb : (parseVersion b).length ≤
      max (max (parseVersion a).length (parseVersion b).length)
        (parseVersion c).length :=
    le_trans (le_max_right _ _) (le_max_left _ _)
  have hlc : (parseVersion c).length ≤
      max (max (parseVersion a).length (parseVersion b).length)
        (parseVersion c).length :=
    le_max_right _ _
  have e1 := compareVersions_eq_compareLoop a b _ (Nat.max_le.mpr ⟨hla, hlb⟩)
  have e2 := compareVersions_eq_compareLoop b c _ (Nat.max_le.mpr ⟨hlb, hlc⟩)
  have e3 := compareVersions_eq_compareLoop a c _ (Nat.max_le.mpr ⟨hla, hlc⟩)
  rw [e1] at h1
  rw [e2] at h2
  rw [e3]
  have hne1 : compareLoop
      (max (max (parseVersion a).length (parseVersion b).length)
        (parseVersion c).length) (parseVersion a) (parseVersion b) ≠ 1 := by
    omega
  have hne2 : compareLoop
      (max (max (parseVersion a).length (parseVersion b).length)
        (parseVersion c).length) (parseVersion b) (parseVersion c) ≠ 1 := by
    omega
  have hne3 := compareLoop_trans_ne_one _ _ _ _ hne1 hne2
  rcases compareLoop_range
      (max (max (parseVersion a).length (parseVersion b).length)
        (parseVersion c).length) (parseVersion a) (parseVersion c)
    with h | h | h <;> omega

theorem compareVersions_trans_lt (a b c : String)
    (h1 : compareVersions a b < 0) (h2 : compareVersions b c < 0) :
    compareVersions a c < 0 := by
  have hla : (parseVersion a).length ≤
      max (max (parseVersion a).length (parseVersion b).length)
        (parseVersion c).length :=
    le_trans (le_max_left _ _) (le_max_left _ _)
  have hlb : (parseVersion b).length ≤
      max (max (parseVersion a).length (parseVersion b).length)
        (parseVersion c).length :=
    le_trans (le_max_right _ _) (le_max_left _ _)
  have hlc : (parseVersion c).length ≤
      max (max (parseVersion a).length (parseVersion b).length)
        (parseVersion c).length :=
    le_max_right _ _
  have e1 := compareVersions_eq_compareLoop a b _ (Nat.max_le.mpr ⟨hla, hlb⟩)
  have e2 := compareVersions_eq_compareLoop b c _ (Nat.max_le.mpr ⟨hlb, hlc⟩)
  have e3 := compareVersions_eq_compareLoop a c _ (Nat.max_le.mpr ⟨hla, hlc⟩)
  rw [e1] at h1
  rw [e2] at h2
  rw [e3]
  have hne1 : compareLoop
      (max (max (parseVersion a).length (parseVersion b).length)
        (parseVersion c).length) (parseVersion a) (parseVersion b) ≠ 1 := by
    omega
  have hne2 : compareLoop
      (max (max (parseVersion a).length (parseVersion b).length)
        (parseVersion c).length) (parseVersion b) (parseVersion c) ≠ 1 := by
    omega
  have hne3 := compareLoop_trans_ne_one _ _ _ _ hne1 hne2
  have hnz : compareLoop
      (max (max (parseVersion a).length (parseVersion b).length)
        (parseVersion c).length) (parseVersion a) (parseVersion c) ≠ 0 := by
    intro h0
    have hcongr := compareLoop_zero_congr _ (parseVersion a) (parseVersion c)
      (parseVersion b) h0
    rw [compareLoop_neg _ (parseVersion c) (parseVersion b)] at hcongr
    omega
  rcases compareLoop_range
      (max (max (parseVersion a).length (parseVersion b).length)
        (parseVersion c).length) (parseVersion a) (parseVersion c)
    with h | h | h <;> omega

/-!
Lemmas about `parseVersion` and `splitOnChar`, for the strip/pad behaviour.
-/

theorem splitOnChar_cons_eq (sep c : Char) (cs : List Char) :
    splitOnChar sep (c :: cs) =
      match splitOnChar sep cs with
      | [] => [[]]
      | g :: gs => if c == sep then [] :: g :: gs else (c :: g) :: gs := rfl

theorem splitOnChar_ne_nil (sep : Char) (l : List Char) :
    splitOnChar sep l ≠ [] := by
  cases l with
  | nil => simp [splitOnChar]
  | cons c cs =>
    simp only [splitOnChar]
    rcases h : splitOnChar sep cs with - | ⟨g, gs⟩
    · simp
    · by_cases hc : (c == sep) = true <;> simp [hc]

theorem splitOnChar_no_sep (sep : Char) (m : List Char)
    (hm : ∀ c ∈ m, c ≠ sep) : splitOnChar sep m = [m] := by
  induction m with
  | nil => rfl
  | cons c cs ih =>
    simp only [splitOnChar, ih (fun d hd => hm d (List.mem_cons_of_mem _ hd))]
    have hc : (c == sep) = false := by
      simpa using hm c (List.mem_cons_self _ _)
    simp [hc]

theorem splitOnChar_append_sep (sep : Char) (l m : List Char)
    (hm : ∀ c ∈ m, c ≠ sep) :
    splitOnChar sep (l ++ sep :: m) = splitOnChar sep l ++ [m] := by
  induction l with
  | nil =>
    simp only [List.nil_append, splitOnChar, splitOnChar_no_sep sep m hm]
    simp [splitOnChar]
  | cons c cs ih =>
    rw [List.cons_append, splitOnChar_cons_eq, ih, splitOnChar_cons_eq]
    rcases h : splitOnChar sep cs with - | ⟨g, gs⟩
    · exact absurd h (splitOnChar_ne_nil sep cs)
    · by_cases hc : (c == sep) = true <;> simp [hc]

theorem stripNonNumeric_idem (a : String) :
    stripNonNumeric (stripNonNumeric a) = stripNonNumeric a := by
  simp [stripNonNumeric, List.filter_filter]

theorem parseVersion_strip (a : String) :
    parseVersion (stripNonNumeric a) = parseVersion a := by
  simp [parseVersion, stripNonNumeric_idem]

theorem stripNonNumeric_append_dot_zero (a : String) :
    (stripNonNumeric (a ++ ".0")).data = (stripNonNumeric a).data ++ ['.', '0'] := by
  simp [stripNonNumeric, String.data_append, List.filter_append]

theorem parseVersion_append_dot_zero (a : String) :
    parseVersion (a ++ ".0") = parseVersion a ++ [0] := by
  simp only [parseVersion, stripNonNumeric_append_dot_zero]
  rw [show ((stripNonNumeric a).data ++ ['.', '0'] :
      List Char) = (stripNonNumeric a).data ++ '.' :: ['0'] from rfl]
  rw [splitOnChar_append_sep '.' _ ['0'] (by decide)]
  simp [parseIntOr0]

theorem compareVersions_pad_left (a b : String) :
    compareVersions (a ++ ".0") b = compareVersions a b := by
  simp only [compareVersions, parseVersion_append_dot_zero, List.length_append,
    List.length_cons, List.length_nil, Nat.zero_add]
  rw [compareLoop_append_zero _ _ _ (le_refl _)]
  exact compareLoop_stable _ _ _ _
    (Nat.max_le.mpr ⟨le_trans (Nat.le_succ _) (le_max_left _ _),
      le_max_right _ _⟩)
    (le_refl _)

theorem compareVersions_pad_right (a b : String) :
    compareVersions a (b ++ ".0") = compareVersions a b := by
  rw [compareVersions_neg_general, compareVersions_pad_left,
    ← compareVersions_neg_general]

/-!
Claim theorems.
-/

/-- Reduction of `validatePackage` on the existing-package branch. -/
theorem validatePackage_existing (env : RegistryEnv)
    (packageName packageVersion npmToken : String)
    (info : PackageVersionInfo) (latest : String) (p : Bool)
    (hfetch : env.fetchPackageInfo packageName = .ok info)
    (hexists : info.exists_ = true)
    (hlatest : info.latestVersion = some latest)
    (hperm : env.checkPublishPermission packageName npmToken = .ok p) :
    validatePackage env packageName packageVersion npmToken =
      .ok { packageExists := true
            canPublish := isVersionHigher packageVersion latest && p
            versionCheck :=
              { isValidVersion := isVersionHigher packageVersion latest
                message :=
                  if isVersionHigher packageVersion latest then
                    "✅ New version " ++ packageVersion ++
                      " is higher than existing version " ++ latest ++ "."
                  else
                    "❌ New version " ++ packageVersion ++
                      " is not higher than existing version " ++ latest ++ "." }
            ownershipCheck := some
              { isOwner := p
                message :=
                  if p then "✅ You have package publish permissions."
                  else "❌ You do not have package publish permissions." } } := by
  simp only [validatePackage, hfetch, hexists, hlatest, hperm, Bool.not_true,
    Bool.false_eq_true, if_false]

/-- C1: for an existing package, `validatePackage` returns
`canPublish = true` exactly when the candidate version compares strictly
greater than the registry latest version and the caller holds publish
permission; when the candidate is equal or lower, `canPublish = false`
whatever the ownership-check outcome `p` was. -/
theorem claim_C1 (env : RegistryEnv)
    (packageName packageVersion npmToken : String)
    (info : PackageVersionInfo) (latest : String) (p : Bool)
    (hfetch : env.fetchPackageInfo packageName = .ok info)
    (hexists : info.exists_ = true)
    (hlatest : info.latestVersion = some latest)
    (hperm : env.checkPublishPermission packageName npmToken = .ok p) :
    ∃ r, validatePackage env packageName packageVersion npmToken = .ok r ∧
      (r.canPublish = true ↔ compareVersions packageVersion latest > 0 ∧ p = true) ∧
      (compareVersions packageVersion latest ≤ 0 → r.canPublish = false) := by
  refine ⟨_, validatePackage_existing env packageName packageVersion npmToken
    info latest p hfetch hexists hlatest hperm, ?_, ?_⟩
  · simp [isVersionHigher]
  · intro hle
    have : ¬(0 < compareVersions packageVersion latest) := by omega
    simp [isVersionHigher, this]

/-- C1 witness: in `envExisting` (latest `1.0.0`, permission granted),
candidate `0.9.0` is not higher, and the returned result has
`canPublish = false`. -/
theorem claim_C1_witness :
    compareVersions "0.9.0" "1.0.0" ≤ 0 ∧
    ∃ r, validatePackage envExisting "pkg" "0.9.0" "token" = .ok r ∧
      r.canPublish = false := by
  obtain ⟨r, hr, -, h2⟩ :=
    claim_C1 envExisting "pkg" "0.9.0" "token" _ "1.0.0" true rfl rfl rfl rfl
  exact ⟨by decide, r, hr, h2 (by decide)⟩

/-- C2: when the registry reports the package as not found,
`validatePackage` returns `packageExists = false` and `canPublish = true`
for every token, and the result does not depend on the permission endpoint
at all (the ownership check is never consulted). -/
theorem claim_C2 (env : RegistryEnv)
    (packageName packageVersion npmToken : String)
    (info : PackageVersionInfo)
    (hfetch : env.fetchPackageInfo packageName = .ok info)
    (hexists : info.exists_ = false) :
    validatePackage env packageName packageVersion npmToken =
      .ok { packageExists := false
            canPublish := true
            versionCheck :=
              { isValidVersion := true
                message := "New package - all versions can be published" } } ∧
    ∀ perm2 : String → String → Except String Bool,
      validatePackage { env with checkPublishPermission := perm2 }
          packageName packageVersion npmToken =
        validatePackage env packageName packageVersion npmToken := by
  have h1 : validatePackage env packageName packageVersion npmToken =
      .ok { packageExists := false
            canPublish := true
            versionCheck :=
              { isValidVersion := true
                message := "New package - all versions can be published" } } := by
    simp [validatePackage, hfetch, hexists]
  refine ⟨h1, fun perm2 => ?_⟩
  have h2 : validatePackage { env with checkPublishPermission := perm2 }
      packageName packageVersion npmToken =
      .ok { packageExists := false
            canPublish := true
            versionCheck :=
              { isValidVersion := true
                message := "New package - all versions can be published" } } := by
    simp [validatePackage, hfetch, hexists]
  rw [h1, h2]

/-- C2 witness: in `envAbsent` the permission endpoint answers
"unauthorized" for every token, yet validation of a fresh package yields
`canPublish = true`. -/
theorem claim_C2_witness :
    validatePackage envAbsent "newpkg" "1.0.0" "invalid-token" =
      .ok { packageExists := false
            canPublish := true
            versionCheck :=
              { isValidVersion := true
                message := "New package - all versions can be published" } } :=
  (claim_C2 envAbsent "newpkg" "1.0.0" "invalid-token" _ rfl rfl).1

/-- C3 counterexample: with the archive step succeeding and the upload step
throwing, the `ArchiveBuild` step completed but the artifact is still on
disk when the process exits — cleanup is not unconditional on the failure
path, contradicting the claim. -/
theorem claim_C3_counterexample :
    (runDeployArchivePhase false (.ok ())
        (.error "Upload failed with status 500: internal error")).archiveWritten
      = true ∧
    (runDeployArchivePhase false (.ok ())
        (.error "Upload failed with status 500: internal error")).artifactAtExit
      = true := ⟨rfl, rfl⟩

/-- C3 (amended): any pre-existing file at the fixed output path is deleted
before the new archive is built, and on the successful exit path the
artifact is deleted before the process exits; but on a failure after the
archive is written (an upload failure) the cleanup step is skipped and the
artifact persists. -/
theorem claim_C3_amended (preExistingArtifact : Bool)
    (zipResult uploadResult : Except String Unit) :
    (runDeployArchivePhase preExistingArtifact zipResult uploadResult).artifactBeforeBuild
      = false ∧
    ((runDeployArchivePhase preExistingArtifact zipResult uploadResult).outcome = .ok () →
      (runDeployArchivePhase preExistingArtifact zipResult uploadResult).artifactAtExit
        = false) ∧
    (∀ e, zipResult = .ok () → uploadResult = .error e →
      (runDeployArchivePhase preExistingArtifact zipResult uploadResult).artifactAtExit
        = true) := by
  rcases zipResult with e | ⟨⟩ <;> rcases uploadResult with e2 | ⟨⟩ <;>
    simp [runDeployArchivePhase]

/-- C3 (amended) witness: stale artifact present, archive built, upload
fails — the stale file was removed before the build, and the fresh artifact
is left behind at exit. -/
theorem claim_C3_amended_witness :
    (runDeployArchivePhase true (.ok ())
        (.error "Upload failed with status 500: internal error")).artifactBeforeBuild
      = false ∧
    (runDeployArchivePhase true (.ok ())
        (.error "Upload failed with status 500: internal error")).artifactAtExit
      = true :=
  ⟨(claim_C3_amended true (.ok ())
      (.error "Upload failed with status 500: internal error")).1,
   (claim_C3_amended true (.ok ())
      (.error "Upload failed with status 500: internal error")).2.2
      "Upload failed with status 500: internal error" rfl rfl⟩

theorem foldl_setAdd_eq_dedupFirst (l : List String) :
    ∀ acc : List String,
      l.foldl setAdd acc = acc ++ dedupFirst (l.filter (fun y => decide (y ∉ acc))) := by
  induction l with
  | nil => intro acc; simp [dedupFirst]
  | cons x xs ih =>
    intro acc
    by_cases hx : x ∈ acc
    · have hsa : setAdd acc x = acc := by simp [setAdd, hx]
      have hfc : (x :: xs).filter (fun y => decide (y ∉ acc)) =
          xs.filter (fun y => decide (y ∉ acc)) := by
        simp [List.filter_cons, hx]
      rw [List.foldl_cons, hsa, hfc]
      exact ih acc
    · have hsa : setAdd acc x = acc ++ [x] := by simp [setAdd, hx]
      have hfc : (x :: xs).filter (fun y => decide (y ∉ acc)) =
          x :: xs.filter (fun y => decide (y ∉ acc)) := by
        simp [List.filter_cons, hx]
      rw [List.foldl_cons, hsa, hfc, ih (acc ++ [x])]
      have hfilter : xs.filter (fun y => decide (y ∉ acc ++ [x])) =
          (xs.filter (fun y => decide (y ∉ acc))).filter (fun y => y != x) := by
        rw [List.filter_filter]
        apply List.filter_congr
        intro y _
        by_cases hyx : y = x <;> by_cases hya : y ∈ acc <;>
          simp [hyx, hya, List.mem_append]
      rw [List.append_assoc]
      congr 1
      rw [hfilter]
      simp [dedupFirst]

/-- C6: the resolved file set always contains `package.json`; with an
absent or empty `files` field the result is exactly the singleton
`["package.json"]` together with the warning signal; otherwise it is the
order-preserving, first-occurrence deduplication of `package.json` followed
by the declared patterns, with no warning. -/
theorem claim_C6 (packageJson : PackageInfo) :
    "package.json" ∈ (getFilesToInclude packageJson).files ∧
    ((packageJson.files = none ∨ packageJson.files = some []) →
      (getFilesToInclude packageJson).files = ["package.json"] ∧
      (getFilesToInclude packageJson).warned = true) ∧
    (∀ fs, packageJson.files = some fs → fs ≠ [] →
      (getFilesToInclude packageJson).files = dedupFirst ("package.json" :: fs) ∧
      (getFilesToInclude packageJson).warned = false) := by
  have hseed : setAdd [] "package.json" = ["package.json"] := rfl
  have hmain : ∀ fs : List String, fs ≠ [] →
      packageJson.files = some fs →
      (getFilesToInclude packageJson).files = dedupFirst ("package.json" :: fs) ∧
      (getFilesToInclude packageJson).warned = false := by
    intro fs hne hfs
    have hie : fs.isEmpty = false := by
      cases fs with
      | nil => exact absurd rfl hne
      | cons a as => rfl
    have hfold := foldl_setAdd_eq_dedupFirst fs ["package.json"]
    have hpred : fs.filter (fun y => decide (y ∉ (["package.json"] : List String))) =
        fs.filter (fun y => y != "package.json") := by
      apply List.filter_congr
      intro y _
      by_cases hy : y = "package.json" <;> simp [hy]
    constructor
    · simp only [getFilesToInclude, hfs, hseed, hie, Bool.false_eq_true, if_false]
      rw [hfold, hpred]
      simp [dedupFirst]
    · simp [getFilesToInclude, hfs, hie]
  refine ⟨?_, ?_, fun fs hfs hne => hmain fs hne hfs⟩
  · rcases hf : packageJson.files with - | fs
    · simp [getFilesToInclude, hf, hseed]
    · rcases fs with - | ⟨x, xs⟩
      · simp [getFilesToInclude, hf, hseed]
      · have := (hmain (x :: xs) (by simp) hf).1
        rw [this]
        simp [dedupFirst]
  · intro hcase
    rcases hcase with hf | hf <;> simp [getFilesToInclude, hf, hseed]

/-- C6 witness: a declared `files` list with a duplicate and a redundant
`package.json` entry resolves, without warning, to the deduplicated
order-preserving union. -/
theorem claim_C6_witness :
    (getFilesToInclude
        { name := "pkg", version := "1.0.0",
          files := some ["dist", "package.json", "dist", "README.md"] }).files =
      dedupFirst ("package.json" :: ["dist", "package.json", "dist", "README.md"]) ∧
    (getFilesToInclude
        { name := "pkg", version := "1.0.0",
          files := some ["dist", "package.json", "dist", "README.md"] }).warned =
      false :=
  (claim_C6 _).2.2 ["dist", "package.json", "dist", "README.md"] rfl (by decide)

/-- C9: a Python project whose `dist/` listing contains no `.whl` file
(in particular an empty or absent `dist/`) makes `findWheelFiles` return
`[]` and `getPythonPackageInfo` return `none`, so the deployment run fails
with an error before any archive is built; and the wheel scan only ever
returns names ending in `.whl`. -/
theorem claim_C9 (env : RegistryEnv) (projectInfo : PyProjectInfo)
    (distExists : Bool) (distFiles : List String)
    (scripts : Option (List (String × String)))
    (npmCredentials : Option (String × String))
    (preExistingArtifact : Bool) (zipResult uploadResult : Except String Unit)
    (hnowheel : distExists = false ∨
      distFiles.all (fun f => !strEndsWith f ".whl") = true) :
    findWheelFiles distExists distFiles = [] ∧
    getPythonPackageInfo (some projectInfo) distExists distFiles = none ∧
    (deployPythonPackage env (some projectInfo) distExists distFiles scripts
        npmCredentials preExistingArtifact zipResult uploadResult).archiveBuilt
      = false ∧
    (∃ msg, (deployPythonPackage env (some projectInfo) distExists distFiles
        scripts npmCredentials preExistingArtifact zipResult
        uploadResult).outcome = .error msg) ∧
    (∀ (dE : Bool) (dF : List String) (f : String),
      f ∈ findWheelFiles dE dF → strEndsWith f ".whl" = true) := by
  have hempty : findWheelFiles distExists distFiles = [] := by
    rcases hnowheel with h | h
    · simp [findWheelFiles, h]
    · simp only [findWheelFiles]
      rcases distExists with - | -
      · simp
      · simp only [Bool.not_true, Bool.false_eq_true, if_false,
          List.filter_eq_nil_iff]
        intro f hf
        have := List.all_eq_true.mp h f hf
        simp_all
  have hinfo : getPythonPackageInfo (some projectInfo) distExists distFiles = none := by
    simp [getPythonPackageInfo, hempty]
  refine ⟨hempty, hinfo, ?_, ?_, ?_⟩
  · simp [deployPythonPackage, hinfo]
  · refine ⟨"Failed to get Python package information. Please ensure pyproject.toml exists and dist/ contains wheel files.", ?_⟩
    simp [deployPythonPackage, hinfo]
  · intro dE dF f hf
    simp only [findWheelFiles] at hf
    rcases dE with - | -
    · simp at hf
    · simp only [Bool.not_true, Bool.false_eq_true, if_false,
        List.mem_filter] at hf
      exact hf.2

/-- C9 witness: a `dist/` directory holding only non-wheel files yields no
artifacts, a `none` package info, and a failed run with no archive built. -/
theorem claim_C9_witness :
    findWheelFiles true ["proj-1.0.0.tar.gz", "README.md"] = [] ∧
    getPythonPackageInfo (some { name := "proj", version := "1.0.0" }) true
      ["proj-1.0.0.tar.gz", "README.md"] = none ∧
    (deployPythonPackage envExisting (some { name := "proj", version := "1.0.0" })
        true ["proj-1.0.0.tar.gz", "README.md"] none none false (.ok ())
        (.ok ())).archiveBuilt = false := by
  obtain ⟨h1, h2, h3, -, -⟩ :=
    claim_C9 envExisting { name := "proj", version := "1.0.0" } true
      ["proj-1.0.0.tar.gz", "README.md"] none none false (.ok ()) (.ok ())
      (Or.inr (by decide))
  exact ⟨h1, h2, h3⟩

/-- C10: `validatePythonPackage` never propagates a registry validation
error: whenever the underlying `validatePackage` throws, it returns
`packageExists = false`, `canPublish = false`, no ownership check, and a
version-check message embedding the error text. -/
theorem claim_C10 (env : RegistryEnv)
    (packageName packageVersion npmToken e : String)
    (herr : validatePackage env packageName packageVersion npmToken = .error e) :
    validatePythonPackage env packageName packageVersion npmToken =
      { packageExists := false
        canPublish := false
        versionCheckMessage := "❌ Validation failed: " ++ e
        ownershipCheckMessage := none } := by
  simp [validatePythonPackage, herr]

/-- C10 witness: a registry timeout surfaces as the controlled
`canPublish = false` result with the error text embedded in the message. -/
theorem claim_C10_witness :
    validatePythonPackage envTimeout "pkg" "1.0.0" "token" =
      { packageExists := false
        canPublish := false
        versionCheckMessage := "❌ Validation failed: Error occurred during package validation: Error: npm registry request timeout"
        ownershipCheckMessage := none } :=
  (claim_C10 envTimeout "pkg" "1.0.0" "token"
      "Error occurred during package validation: Error: npm registry request timeout"
      rfl).trans (by decide)

/-- C4: `compareVersions` is antisymmetric
(`compareVersions a b = -compareVersions b a`) and the induced ordering is
transitive, both in the non-strict and in the strict sense. -/
theorem claim_C4 (a b c : String) :
    compareVersions a b = -compareVersions b a ∧
    (compareVersions a b ≤ 0 → compareVersions b c ≤ 0 →
      compareVersions a c ≤ 0) ∧
    (compareVersions a b < 0 → compareVersions b c < 0 →
      compareVersions a c < 0) :=
  ⟨compareVersions_neg_general a b,
   compareVersions_trans_le a b c,
   compareVersions_trans_lt a b c⟩

/-- C4 witness: the transitivity chains at concrete versions
`1.2 ≤ 1.10 ≤ 2` and `1.0.0 < 1.0.1 < 2`. -/
theorem claim_C4_witness :
    compareVersions "1.2" "1.10" ≤ 0 ∧ compareVersions "1.10" "2" ≤ 0 ∧
    compareVersions "1.2" "2" ≤ 0 ∧
    compareVersions "1.0.0" "1.0.1" < 0 ∧ compareVersions "1.0.1" "2" < 0 ∧
    compareVersions "1.0.0" "2" < 0 :=
  ⟨by decide, by decide,
   (claim_C4 "1.2" "1.10" "2").2.1 (by decide) (by decide),
   by decide, by decide,
   (claim_C4 "1.0.0" "1.0.1" "2").2.2 (by decide) (by decide)⟩

/-- C5: `compareVersions` compares only numeric components — each input is
equivalent to its non-digit-non-dot-stripped form, a missing trailing
component compares as `0` (appending `.0` to either side never changes the
outcome), and in particular a pre-release suffix is ignored:
`compareVersions "1.0.0-beta" "1.0.0" = 0`. -/
theorem claim_C5 (a b : String) :
    compareVersions a b =
      compareVersions (stripNonNumeric a) (stripNonNumeric b) ∧
    compareVersions (a ++ ".0") b = compareVersions a b ∧
    compareVersions a (b ++ ".0") = compareVersions a b ∧
    compareVersions "1.0.0-beta" "1.0.0" = 0 := by
  refine ⟨?_, compareVersions_pad_left a b, compareVersions_pad_right a b,
    by decide⟩
  simp only [compareVersions, parseVersion_strip]

theorem segMatch_self (l : List Char) (hl : ('*' : Char) ∉ l) :
    segMatch l l = true := by
  induction l with
  | nil => simp [segMatch]
  | cons c cs ih =>
    have hcs : ('*' : Char) ∉ cs := fun h => hl (List.mem_cons_of_mem _ h)
    have hc : (c == '*') = false := by
      have : c ≠ '*' := fun h => hl (h ▸ List.mem_cons_self _ _)
      simpa using this
    simp [segMatch, hc, ih hcs]

theorem segMatch_star (cs : List Char) : segMatch ['*'] cs = true := by
  induction cs with
  | nil => simp [segMatch]
  | cons c cs2 ih => simp [segMatch, ih]

theorem globMatch_append_left (pre : List String)
    (hpre : ∀ s ∈ pre, ('*' : Char) ∉ s.data) :
    ∀ ps fs : List String, globMatch (pre ++ ps) (pre ++ fs) = globMatch ps fs := by
  induction pre with
  | nil => intro ps fs; simp
  | cons s rest ih =>
    intro ps fs
    have hs : ('*' : Char) ∉ s.data := hpre s (List.mem_cons_self _ _)
    have hne : (s == "**") = false := by
      have : s ≠ "**" := by
        intro h
        exact hs (by rw [h]; decide)
      simpa using this
    simp only [List.cons_append, globMatch, hne, Bool.false_eq_true, if_false]
    rw [segMatch_self s.data hs]
    simp only [Bool.true_and]
    exact ih (fun t ht => hpre t (List.mem_cons_of_mem _ ht)) ps fs

theorem globMatch_doublestar_star (fs : List String) (h : fs ≠ []) :
    globMatch ["**", "*"] fs = true := by
  induction fs with
  | nil => exact absurd rfl h
  | cons f fs2 ih =>
    cases fs2 with
    | nil => simp [globMatch, segMatch_star]
    | cons g gs =>
      have h2 : globMatch ["**", "*"] (g :: gs) = true := ih (by simp)
      simp [globMatch, h2]

/-- C7: for an exclusion pattern that is a bare directory name — no
wildcard in any segment, nonempty, no trailing separator — the exclusion
check matches the directory itself and every path extending it, however
the include side enumerated those paths. -/
theorem claim_C7 (name path : List String)
    (hW : ∀ s ∈ name, ('*' : Char) ∉ s.data)
    (hNE : name ≠ [])
    (hSep : name.getLast? ≠ some "")
    (hpre : ∃ rest, path = name ++ rest) :
    isExcluded path [name] = true := by
  obtain ⟨rest, hpath⟩ := hpre
  subst hpath
  have hWb : (name.any fun s => s.data.contains '*') = false := by
    rw [List.any_eq_false]
    intro s hs
    simpa using hW s hs
  have hLb : (name.getLastD "" == "") = false := by
    rw [List.getLastD_eq_getLast?]
    rcases hgl : name.getLast? with - | ⟨x⟩
    · exact absurd (List.getLast?_eq_none_iff.mp hgl) hNE
    · simp only [Option.getD_some]
      have : x ≠ "" := fun h => hSep (by rw [hgl, h])
      simpa using this
  have hnorm : normalizeExcludePattern name =
      [name, name ++ [""], name ++ ["*"], name ++ ["**", "*"]] := by
    simp only [normalizeExcludePattern, hWb, hLb]
    simp
  rcases rest with - | ⟨r, rs⟩
  · -- the path is the directory entry itself: the original pattern matches
    rw [List.append_nil]
    have hm : matchesPattern name name = true := by
      match name, hNE with
      | [s], _ =>
        have hred : matchesPattern [s] [s] = segMatch s.data s.data := by
          simp [matchesPattern]
        rw [hred]
        exact segMatch_self s.data (hW s (List.mem_cons_self _ _))
      | s1 :: s2 :: ss, _ =>
        have hlen : ((s1 :: s2 :: ss).length == 1) = false := by
          simp
        simp only [matchesPattern, hlen, Bool.false_eq_true, if_false]
        have hg := globMatch_append_left (s1 :: s2 :: ss) hW [] []
        simp only [List.append_nil] at hg
        rw [hg]
        simp [globMatch]
    simp [isExcluded, hnorm, hm]
  · -- a strict extension: the generated `name/**/*` pattern matches
    have hm : matchesPattern (name ++ r :: rs) (name ++ ["**", "*"]) = true := by
      have hlen : ((name ++ ["**", "*"]).length == 1) = false := by
        have h2 : (name ++ ["**", "*"]).length = name.length + 2 := by simp
        rw [h2]
        simp
      simp only [matchesPattern, hlen, Bool.false_eq_true, if_false]
      rw [globMatch_append_left name hW ["**", "*"] (r :: rs)]
      exact globMatch_doublestar_star _ (by simp)
    simp [isExcluded, hnorm, hm]

/-- C7 witness: excluding the bare name `node_modules` suppresses a deep
path under `node_modules/` that an include-side `**/*` would have listed. -/
theorem claim_C7_witness :
    isExcluded ["node_modules", "pkg", "index.js"] [["node_modules"]] = true :=
  claim_C7 ["node_modules"] ["node_modules", "pkg", "index.js"]
    (by decide) (by decide) (by decide) ⟨["pkg", "index.js"], rfl⟩

theorem tryPlaceholder_not_dollar (c : Char) (cs : List Char) (hc : c ≠ '$') :
    tryPlaceholder (c :: cs) = none := by
  have hb : ('$' == c) = false := by
    have : '$' ≠ c := fun h => hc h.symm
    simpa using this
  simp [tryPlaceholder, stripPrefixChars, hb]

theorem stripPrefixChars_self_append (p r : List Char) :
    stripPrefixChars p (p ++ r) = some r := by
  induction p with
  | nil => rfl
  | cons a ps ih => simp [stripPrefixChars, ih]

theorem takeIdent_ident_brace (i rest : List Char)
    (hi : ∀ c ∈ i, isIdentChar c = true) :
    takeIdent (i ++ '\x7d' :: rest) = (i, '\x7d' :: rest) := by
  induction i with
  | nil => simp [takeIdent, show isIdentChar '\x7d' = false from by decide]
  | cons c cs ih =>
    have hc := hi c (List.mem_cons_self _ _)
    simp [takeIdent, hc, ih (fun d hd => hi d (List.mem_cons_of_mem _ hd))]

theorem skipWs_not_ws (c : Char) (cs : List Char) (hc : isWsChar c = false) :
    skipWs (c :: cs) = c :: cs := by
  simp [skipWs, hc]

theorem tryPlaceholder_exact (name : String) (suffix : List Char)
    (hv : isValidVarName name = true) :
    tryPlaceholder
        ('$' :: '\x7b' :: ("process.env.".data ++ (name.data ++ '\x7d' :: suffix))) =
      some (name, suffix) := by
  rcases hnd : name.data with - | ⟨c, cs⟩
  · rw [isValidVarName, hnd] at hv
    exact absurd hv (by simp)
  · rw [isValidVarName, hnd] at hv
    simp only [Bool.and_eq_true, List.all_eq_true] at hv
    obtain ⟨hc, hcs⟩ := hv
    have h1 : stripPrefixChars ['$', '\x7b']
        ('$' :: '\x7b' :: ("process.env.".data ++ (name.data ++ '\x7d' :: suffix))) =
        some ("process.env.".data ++ (name.data ++ '\x7d' :: suffix)) := by
      simp [stripPrefixChars]
    have h2 : skipWs ("process.env.".data ++ (name.data ++ '\x7d' :: suffix)) =
        "process.env.".data ++ (name.data ++ '\x7d' :: suffix) := by
      rw [show ("process.env.".data ++ (name.data ++ '\x7d' :: suffix)) =
        'p' :: ("rocess.env.".data ++ (name.data ++ '\x7d' :: suffix)) from rfl]
      exact skipWs_not_ws _ _ (by decide)
    have h3 : stripPrefixChars "process.env.".data
        ("process.env.".data ++ (name.data ++ '\x7d' :: suffix)) =
        some (name.data ++ '\x7d' :: suffix) :=
      stripPrefixChars_self_append _ _
    have h4 : skipWs ('\x7d' :: suffix) = '\x7d' :: suffix :=
      skipWs_not_ws _ _ (by decide)
    simp only [tryPlaceholder, h1, h2, h3, hnd, List.cons_append,
      List.nil_append, hc, if_true, takeIdent_ident_brace cs suffix hcs, h4,
      stripPrefixChars, beq_self_eq_true]
    rw [← hnd]

theorem substituteEnvVarsLoop_nil (env : String → Option String) (n : Nat) :
    substituteEnvVarsLoop env n [] = [] := by
  cases n <;> rfl

theorem substituteEnvVarsLoop_fuel (env : String → Option String) :
    ∀ (n m : Nat) (l : List Char), l.length ≤ n → l.length ≤ m →
      substituteEnvVarsLoop env n l = substituteEnvVarsLoop env m l := by
  intro n
  induction n with
  | zero =>
    intro m l hn _
    have hl : l = [] := List.eq_nil_of_length_eq_zero (by omega)
    subst hl
    rw [substituteEnvVarsLoop_nil, substituteEnvVarsLoop_nil]
  | succ n ih =>
    intro m l hn hm
    cases m with
    | zero =>
      have hl : l = [] := List.eq_nil_of_length_eq_zero (by omega)
      subst hl
      rw [substituteEnvVarsLoop_nil, substituteEnvVarsLoop_nil]
    | succ m =>
      cases l with
      | nil => rfl
      | cons c cs =>
        cases htp : tryPlaceholder (c :: cs) with
        | none =>
          simp only [substituteEnvVarsLoop, htp]
          rw [ih m cs (by simp at hn; omega) (by simp at hm; omega)]
        | some p =>
          obtain ⟨v, rest⟩ := p
          have hrest := tryPlaceholder_length htp
          simp only [substituteEnvVarsLoop, htp]
          rw [ih m rest (by simp at hn hrest ⊢; omega)
            (by simp at hm hrest ⊢; omega)]

theorem substituteEnvVarsLoop_no_dollar (env : String → Option String) :
    ∀ (n : Nat) (l : List Char), l.length ≤ n → ('$' : Char) ∉ l →
      substituteEnvVarsLoop env n l = l := by
  intro n
  induction n with
  | zero =>
    intro l hn _
    have hl : l = [] := List.eq_nil_of_length_eq_zero (by omega)
    subst hl
    rfl
  | succ n ih =>
    intro l hn hd
    cases l with
    | nil => rfl
    | cons c cs =>
      have hc : c ≠ '$' := fun h => hd (h ▸ List.mem_cons_self _ _)
      simp only [substituteEnvVarsLoop, tryPlaceholder_not_dollar c cs hc]
      rw [ih cs (by simp at hn; omega) (fun h => hd (List.mem_cons_of_mem _ h))]

theorem substituteEnvVarsLoop_cons_not_dollar (env : String → Option String)
    (n : Nat) (c : Char) (l : List Char) (hc : c ≠ '$') :
    substituteEnvVarsLoop env (n + 1) (c :: l) =
      c :: substituteEnvVarsLoop env n l := by
  simp only [substituteEnvVarsLoop, tryPlaceholder_not_dollar c l hc]

theorem substituteEnvVarsLoop_placeholder (env : String → Option String) :
    ∀ (pre : List Char) (n : Nat) (name : String) (suffix : List Char),
      ('$' : Char) ∉ pre → isValidVarName name = true →
      (pre ++ '$' :: '\x7b' ::
        ("process.env.".data ++ (name.data ++ '\x7d' :: suffix))).length ≤ n →
      substituteEnvVarsLoop env n
          (pre ++ '$' :: '\x7b' ::
            ("process.env.".data ++ (name.data ++ '\x7d' :: suffix))) =
        pre ++
          (match env name with
           | none => []
           | some v => (jsonEscape v).data) ++
          substituteEnvVarsLoop env suffix.length suffix := by
  intro pre
  induction pre with
  | nil =>
    intro n name suffix _ hv hlen
    simp only [List.nil_append] at hlen ⊢
    cases n with
    | zero => exact absurd hlen (by simp)
    | succ n =>
      simp only [substituteEnvVarsLoop, tryPlaceholder_exact name suffix hv]
      rw [substituteEnvVarsLoop_fuel env n suffix.length suffix
        (by simp [List.length_append] at hlen; omega) (le_refl _)]
  | cons c pre ih =>
    intro n name suffix hd hv hlen
    have hc : c ≠ '$' := fun h => hd (h ▸ List.mem_cons_self _ _)
    cases n with
    | zero => exact absurd hlen (by simp)
    | succ n =>
      rw [List.cons_append, substituteEnvVarsLoop_cons_not_dollar env n c _ hc,
        ih n name suffix (fun h => hd (List.mem_cons_of_mem _ h)) hv
          (by simp [List.length_append] at hlen ⊢; omega)]
      simp

/-- C8: the config substitution pass is total by construction (it maps every
input string to a string); content without a `$` passes through untouched;
a well-formed placeholder is replaced by the (JSON-escaped) environment
value, or by the empty string when the variable is unset; and
`parseDeployConfigs` performs the substitution on the raw content before
handing it to the JSON parsing / validation stage. -/
theorem claim_C8 (env : String → Option String)
    (jsonParse : String → Option DeployConfigs)
    (content pre name suffix : String) :
    (('$' : Char) ∉ content.data → substituteEnvVars env content = content) ∧
    (('$' : Char) ∉ pre.data → isValidVarName name = true →
      (∀ v, env name = some v →
        substituteEnvVars env
            (pre ++ "$\x7bprocess.env." ++ name ++ "\x7d" ++ suffix) =
          pre ++ jsonEscape v ++ substituteEnvVars env suffix) ∧
      (env name = none →
        substituteEnvVars env
            (pre ++ "$\x7bprocess.env." ++ name ++ "\x7d" ++ suffix) =
          pre ++ substituteEnvVars env suffix)) ∧
    parseDeployConfigs env jsonParse content =
      jsonParse (substituteEnvVars env content) := by
  have string_eq_of_data_eq : ∀ {a b : String}, a.data = b.data → a = b := by
    intro a b h
    cases a
    cases b
    congr 1
  have hdata : (pre ++ "$\x7bprocess.env." ++ name ++ "\x7d" ++ suffix).data =
      pre.data ++ '$' :: '\x7b' ::
        ("process.env.".data ++ (name.data ++ '\x7d' :: suffix.data)) := by
    simp [String.data_append, List.append_assoc]
  refine ⟨?_, ?_, rfl⟩
  · intro h
    show String.mk _ = content
    rw [substituteEnvVarsLoop_no_dollar env content.data.length content.data
      (le_refl _) h]
  · intro hpre hv
    have hsub : substituteEnvVars env
        (pre ++ "$\x7bprocess.env." ++ name ++ "\x7d" ++ suffix) =
        String.mk (pre.data ++
          (match env name with
           | none => []
           | some v => (jsonEscape v).data) ++
          substituteEnvVarsLoop env suffix.data.length suffix.data) := by
      show String.mk _ = _
      rw [hdata, substituteEnvVarsLoop_placeholder env pre.data _ name
        suffix.data hpre hv (le_refl _)]
    constructor
    · intro v hvv
      rw [hsub]
      simp only [hvv]
      apply string_eq_of_data_eq
      rfl
    · intro hvn
      rw [hsub]
      simp only [hvn, List.append_nil]
      apply string_eq_of_data_eq
      rfl

/-- Environment used by the C8 witness: only `MY_TOKEN` is set. -/
def envC8 : String → Option String :=
  fun name => if name = "MY_TOKEN" then some "secret-token" else none

/-- C8 witness: a config fragment with a set variable substitutes its value,
and one with an unset variable substitutes the empty string. -/
theorem claim_C8_witness :
    substituteEnvVars envC8
        ("res=" ++ "$\x7bprocess.env." ++ "MY_TOKEN" ++ "\x7d" ++ "!") =
      "res=" ++ jsonEscape "secret-token" ++ substituteEnvVars envC8 "!" ∧
    substituteEnvVars envC8
        ("res=" ++ "$\x7bprocess.env." ++ "UNSET_VAR" ++ "\x7d" ++ "!") =
      "res=" ++ substituteEnvVars envC8 "!" :=
  ⟨((claim_C8 envC8 (fun _ => none) "" "res=" "MY_TOKEN" "!").2.1
      (by decide) (by decide)).1 "secret-token" rfl,
   ((claim_C8 envC8 (fun _ => none) "" "res=" "UNSET_VAR" "!").2.1
      (by decide) (by decide)).2 rfl⟩

end Deploxy
